import Mathlib

/-!
Shallow embedding of the QMap qubit-routing pass (`optimizer.py`,
`hardware_configs.py`, `qmap_dialect.py`) and proofs about it.

Conventions of the embedding:
* Python `int` ids (both `LogicalQubit.id` and `PhysicalQubit.id`) are `Int`.
* Python `float` values (fidelities, scores) are exact rationals `ℚ`; every
  literal occurring in the sources (1.0, 0.99, 0.92, 0.95, 10.0) is an exact
  decimal, and all comparisons the router makes are reproduced exactly.
* A Python `dict` is an insertion-ordered association list with unique keys;
  updating an existing key keeps its position, a new key is appended.
* A Python `set` is a duplicate-free list; the iteration order of sets is
  implementation-defined in Python, so the embedding fixes insertion order.
  No claim proved below depends on that order except through the router's
  deterministic tie-breaking, which the spec leaves implementation-defined.
* The string labels `'P{i}'` of physical qubits are kept as the integer `i`;
  `'P' + str(i)` is injective, so adjacency/neighbour/fidelity lookups over
  labels coincide with lookups over ids.  The one place the source reads a
  label back (`int(neighbor_str[1])` in `_get_candidate_swaps`) extracts the
  single character at index 1, i.e. the first digit: it is embedded by
  `labelDigit` below.
-/

/-- Association-list lookup, mirroring Python `dict.get` / `dict[k]`
(a `dict` has unique keys, so first match is the match). -/
def dictLookupG {α β : Type} [BEq α] (d : List (α × β)) (k : α) : Option β :=
  (d.find? (fun kv => kv.1 == k)).map (·.2)

/-- Association-list update, mirroring Python `d[k] = v`: an existing key is
updated in place (keeping its insertion position), a new key is appended. -/
def dictSetG {α β : Type} [BEq α] (d : List (α × β)) (k : α) (v : β) :
    List (α × β) :=
  if (d.find? (fun kv => kv.1 == k)).isSome then
    d.map (fun kv => if kv.1 == k then (k, v) else kv)
  else
    d ++ [(k, v)]

/-- Layout lookup (`current_layout[lq]` / `.get(lq)`). -/
def dictLookup (d : List (Int × Int)) (k : Int) : Option Int :=
  dictLookupG d k

/-- Layout update (`current_layout[lq] = pq`). -/
def dictSet (d : List (Int × Int)) (k : Int) (v : Int) : List (Int × Int) :=
  dictSetG d k v

/-- Append an element to a duplicate-free list unless already present,
mirroring Python `set.add` under insertion order. -/
def insertUniq (l : List Int) (x : Int) : List Int :=
  if l.contains x then l else l ++ [x]

/-- Same as `insertUniq` but for pairs (Python `set` of 2-tuples). -/
def insertUniqPair (l : List (Int × Int)) (x : Int × Int) : List (Int × Int) :=
  if l.contains x then l else l ++ [x]

/-- A topology as in `hardware_configs.py`: the coupling graph as an
adjacency list (Python `dict[str, set[str]]`, labels replaced by ids), plus
the `get_fidelity` method, which differs between the classes. -/
structure Topology where
  graph : List (Int × List Int)
  fid : Int → Int → ℚ

/-- Neighbour lookup on the coupling graph (`coupling_graph.get(q, set())`). -/
def getNeighbors (t : Topology) (q : Int) : List Int :=
  ((t.graph.find? (fun kv => kv.1 == q)).map (·.2)).getD []

/-- `LinearTopology.are_adjacent`: `qubit2 in coupling_graph[qubit1]` with a
missing-key guard returning `False`. -/
def areAdjacent (t : Topology) (q1 q2 : Int) : Bool :=
  match t.graph.find? (fun kv => kv.1 == q1) with
  | none => false
  | some kv => kv.2.contains q2

/-- One pass of the BFS inner `for neighbor in ...` loop: either returns the
completed path (neighbour equals the goal) or the extended visited set and
queue. -/
def bfsScan (endId : Int) (path : List Int) :
    List Int → List Int → List (Int × List Int) →
    Option (List Int) × List Int × List (Int × List Int)
  | [], visited, queue => (none, visited, queue)
  | n :: ns, visited, queue =>
    if n == endId then (some (path ++ [n]), visited, queue)
    else if visited.contains n then bfsScan endId path ns visited queue
    else bfsScan endId path ns (visited ++ [n]) (queue ++ [(n, path ++ [n])])

/-- The BFS `while queue:` loop of `LinearTopology.shortest_path`, with fuel.
Each iteration dequeues one node; at most `|nodes| + 1` nodes are ever
enqueued, so `graph.length + 1` fuel always suffices. -/
def bfsAux (t : Topology) (endId : Int) :
    Nat → List Int → List (Int × List Int) → List Int
  | 0, _, _ => []
  | fuel + 1, visited, queue =>
    match queue with
    | [] => []
    | (current, path) :: rest =>
      match bfsScan endId path (getNeighbors t current) visited rest with
      | (some p, _, _) => p
      | (none, visited2, queue2) => bfsAux t endId fuel visited2 queue2

/-- `LinearTopology.shortest_path`: BFS returning the node list of a shortest
path (including both endpoints), `[]` when none exists. -/
def shortestPath (t : Topology) (s e : Int) : List Int :=
  if s == e then [s]
  else bfsAux t e (t.graph.length + 1) [s] [(s, [s])]

/-- `LinearTopology` from `hardware_configs.py`: chain P0 — P1 — P2, with
`get_fidelity` returning the constant 1.0. -/
def linearTopology : Topology :=
  { graph := [(0, [1]), (1, [0, 2]), (2, [1])]
    fid := fun _ _ => 1 }

/-- `Grid2x2Topology`: 2×2 grid; inherits `get_fidelity` (constant 1.0). -/
def grid2x2Topology : Topology :=
  { graph := [(0, [1, 2]), (1, [0, 3]), (2, [0, 3]), (3, [1, 2])]
    fid := fun _ _ => 1 }

/-- The undirected edge list of `HeavyHexTopology` (`connections`). -/
def heavyHexConnections : List (Int × Int) :=
  [(0, 1), (1, 2), (0, 4), (2, 6), (3, 4), (4, 5), (5, 6), (6, 7),
   (4, 8), (6, 10), (8, 9), (9, 10), (9, 11), (11, 12), (12, 13)]

/-- The adjacency list `HeavyHexTopology.__init__` builds from
`connections` (both directions, neighbour lists in insertion order). -/
def heavyHexGraph : List (Int × List Int) :=
  heavyHexConnections.foldl
    (fun g uv =>
      let g1 := dictSetG g uv.1 ((dictLookupG g uv.1).getD [] ++ [uv.2])
      dictSetG g1 uv.2 ((dictLookupG g1 uv.2).getD [] ++ [uv.1]))
    ((List.range 14).map (fun i => ((i : Int), ([] : List Int))))

/-- `HeavyHexTopology.fidelities`: 0.99 on every directed edge, then the
overrides 0.92 on (4,5)/(5,4) and 0.95 on (9,11)/(11,9). -/
def heavyHexFidelities : List ((Int × Int) × ℚ) :=
  let base := heavyHexGraph.foldl
    (fun acc kv => acc ++ kv.2.map (fun v => ((kv.1, v), (99 : ℚ) / 100))) []
  let f1 := dictSetG base (((4 : Int), (5 : Int))) ((92 : ℚ) / 100)
  let f2 := dictSetG f1 (((5 : Int), (4 : Int))) ((92 : ℚ) / 100)
  let f3 := dictSetG f2 (((9 : Int), (11 : Int))) ((95 : ℚ) / 100)
  dictSetG f3 (((11 : Int), (9 : Int))) ((95 : ℚ) / 100)

/-- `HeavyHexTopology` with its `get_fidelity`:
`self.fidelities.get((q1, q2), 0.0)`. -/
def heavyHexTopology : Topology :=
  { graph := heavyHexGraph
    fid := fun a b => (dictLookupG heavyHexFidelities (a, b)).getD 0 }

/-- Embeds `int(neighbor_str[1])` where `neighbor_str = 'P' + str(n)`: the
character at index 1 is the first decimal digit of `n`.  All neighbour ids
produced by the topologies in scope lie in `[0, 14)`, where this equals `n`
for `n < 10` and the leading digit `n / 10` for two-digit ids. -/
def labelDigit (n : Int) : Int :=
  if n < 10 then n else n / 10

/-- `tuple(sorted([a, b]))`. -/
def sortPair (a b : Int) : Int × Int :=
  if a ≤ b then (a, b) else (b, a)

/-- The closed sum of IR operation kinds of `qmap_dialect.py`. -/
inductive Op
  | singleGate (gate : String) (qubit : Int)
  | tryTwoQubit (gate : String) (control target : Int)
  | insertSwap (qubit1 qubit2 : Int) (cost : ℚ)
  | currentLayout (layout : List (Int × Int))
deriving DecidableEq, Repr

/-- A front-layer element: the fields of a `TryTwoQubitOp` collected by
`_build_front_layer`. -/
structure TwoQ where
  gate : String
  control : Int
  target : Int
deriving DecidableEq, Repr

/-- The walk of `QMapOptimizerPass._build_front_layer`: `front` and `used`
accumulate in program order; a `TryTwoQubitOp` clashing with `used` stops
the whole walk. -/
def buildFrontGo : List Op → List Int → List TwoQ → List TwoQ
  | [], _, front => front
  | op :: rest, used, front =>
    match op with
    | .tryTwoQubit g c t =>
      if !used.contains c && !used.contains t then
        buildFrontGo rest (insertUniq (insertUniq used c) t)
          (front ++ [⟨g, c, t⟩])
      else
        front
    | _ => buildFrontGo rest used front

/-- `QMapOptimizerPass._build_front_layer`. -/
def buildFrontLayer (remainingOps : List Op) : List TwoQ :=
  buildFrontGo remainingOps [] []

/-- `QMapOptimizerPass._calculate_score`: Σ over front-layer gates of
`len(path) - 1` when a path exists, 0 otherwise; gates whose operands are
missing from the trial layout are skipped. -/
def calculateScore (t : Topology) (potentialLayout : List (Int × Int))
    (frontLayer : List TwoQ) : ℚ :=
  frontLayer.foldl
    (fun total g =>
      match dictLookup potentialLayout g.control,
            dictLookup potentialLayout g.target with
      | some pq1, some pq2 =>
        let path := shortestPath t pq1 pq2
        total + (if path.isEmpty then 0 else ((path.length - 1 : ℕ) : ℚ))
      | _, _ => total)
    0

/-- `QMapOptimizerPass._get_candidate_swaps`: physical qubits of the
front-layer logical qubits, paired with their neighbours; the neighbour id
is reconstructed from its label by `labelDigit` (the `int(neighbor_str[1])`
of the source); pairs are deduplicated in sorted order. -/
def getCandidateSwaps (t : Topology) (layout : List (Int × Int))
    (frontLayer : List TwoQ) : List (Int × Int) :=
  let logicalInFront := frontLayer.foldl
    (fun acc g => insertUniq (insertUniq acc g.control) g.target) []
  let physicalInFront := logicalInFront.foldl
    (fun acc lq =>
      match dictLookup layout lq with
      | some pq => insertUniq acc pq
      | none => acc) []
  physicalInFront.foldl
    (fun acc pq =>
      (getNeighbors t pq).foldl
        (fun acc2 nb => insertUniqPair acc2 (sortPair pq (labelDigit nb)))
        acc)
    []

/-- The occupant search shared by `_apply_swap` and the trial-swap code in
`_select_best_swap`: one pass over the layout items; `pq == pq1` is tested
first (`elif` for `pq2`), later matches overwrite earlier ones. -/
def findOccupants (layout : List (Int × Int)) (pq1 pq2 : Int) :
    Option Int × Option Int :=
  layout.foldl
    (fun acc kv =>
      if kv.2 == pq1 then (some kv.1, acc.2)
      else if kv.2 == pq2 then (acc.1, some kv.1)
      else acc)
    (none, none)

/-- `QMapOptimizerPass._apply_swap` (also the trial layout built inside
`_select_best_swap`): move the occupant of `pq1` to `pq2` and vice versa. -/
def applySwapToLayout (layout : List (Int × Int)) (pq1 pq2 : Int) :
    List (Int × Int) :=
  let occ := findOccupants layout pq1 pq2
  let layout1 := match occ.1 with
    | some lq1 => dictSet layout lq1 pq2
    | none => layout
  match occ.2 with
  | some lq2 => dictSet layout1 lq2 pq1
  | none => layout1

/-- The combined cost `_select_best_swap` computes for one candidate:
look-ahead distance of the trial layout plus `(1 - fidelity) * 10.0`. -/
def combinedScore (t : Topology) (layout : List (Int × Int))
    (frontLayer : List TwoQ) (c : Int × Int) : ℚ :=
  calculateScore t (applySwapToLayout layout c.1 c.2) frontLayer
    + (1 - t.fid c.1 c.2) * 10

/-- The `for pq1, pq2 in candidate_swaps` loop of `_select_best_swap`:
`best_score` starts at `inf`, so the accumulator is `none` until the first
candidate; a later candidate replaces it only on a strictly smaller score. -/
def selectLoop (t : Topology) (layout : List (Int × Int))
    (frontLayer : List TwoQ) :
    List (Int × Int) → Option ((Int × Int × ℚ) × ℚ) →
    Option ((Int × Int × ℚ) × ℚ)
  | [], acc => acc
  | c :: rest, acc =>
    let combined := combinedScore t layout frontLayer c
    let take := match acc with
      | none => true
      | some (_, bestScore) => combined < bestScore
    selectLoop t layout frontLayer rest
      (if take then some ((c.1, c.2, 1 - t.fid c.1 c.2), combined) else acc)

/-- `QMapOptimizerPass._select_best_swap`: `none` for an empty front layer or
empty candidate set, otherwise the `InsertSwapOp(pq1, pq2, cost)` data of the
minimising candidate. -/
def selectBestSwap (t : Topology) (layout : List (Int × Int))
    (frontLayer : List TwoQ) : Option (Int × Int × ℚ) :=
  if frontLayer.isEmpty then none
  else
    let cands := getCandidateSwaps t layout frontLayer
    if cands.isEmpty then none
    else (selectLoop t layout frontLayer cands none).map (·.1)

/-- Result of routing one `TryTwoQubitOp` (the inner `while` loop of
`optimize`): the updated layout, the emitted `InsertSwapOp`s,
`num_swaps_for_gate`, and whether the loop broke on "no SWAP candidates"
(the source prints a warning there). -/
inductive GateRouteOut
  | done (layout : List (Int × Int)) (swaps : List Op) (numSwaps : Nat)
      (aborted : Bool)
  | keyErr
deriving DecidableEq, Repr

/-- The inner `while not are_adjacent` loop of `QMapOptimizerPass.optimize`
for one gate, with fuel (`none` = fuel exhausted; the source has no bound).
`get_physical_qubits` raises `KeyError` on a missing logical qubit, embedded
as `keyErr`. -/
def routeGate (t : Topology) (control target : Int) (remaining : List Op) :
    Nat → List (Int × Int) → List Op → Nat → Option GateRouteOut
  | 0, _, _, _ => none
  | fuel + 1, layout, swaps, numSwaps =>
    match dictLookup layout control, dictLookup layout target with
    | some pq1, some pq2 =>
      if areAdjacent t pq1 pq2 then
        some (.done layout swaps numSwaps false)
      else
        match selectBestSwap t layout (buildFrontLayer remaining) with
        | none => some (.done layout swaps numSwaps true)
        | some (q1, q2, cost) =>
          routeGate t control target remaining fuel
            (applySwapToLayout layout q1 q2)
            (swaps ++ [Op.insertSwap q1 q2 cost]) (numSwaps + 1)
    | _, _ => some .keyErr

/-- Result of `QMapOptimizerPass.optimize`: the routed IR together with
whether any "no SWAP candidates" warning was printed, a `KeyError` escape,
or inner-loop fuel exhaustion (the embedding of non-termination). -/
inductive OptResult
  | success (ops : List Op) (aborted : Bool)
  | keyError
  | outOfFuel
deriving DecidableEq, Repr

/-- The outer `while op_index < len(remaining_ops)` loop of `optimize`.
The front layer for a gate is built from the suffix starting at the gate
itself; after the inner loop, a refreshed `CurrentLayoutOp` is emitted iff
at least one SWAP was inserted, then the gate itself. -/
def optimizeGo (t : Topology) (fuel : Nat) :
    List Op → List (Int × Int) → List Op → Bool → OptResult
  | [], _, acc, aborted => .success acc aborted
  | op :: rest, layout, acc, aborted =>
    match op with
    | .tryTwoQubit _ c tg =>
      match routeGate t c tg (op :: rest) fuel layout [] 0 with
      | none => .outOfFuel
      | some .keyErr => .keyError
      | some (.done layout2 swaps numSwaps ab) =>
        optimizeGo t fuel rest layout2
          ((if numSwaps > 0 then (acc ++ swaps) ++ [Op.currentLayout layout2]
            else acc ++ swaps) ++ [op]) (aborted || ab)
    | _ => optimizeGo t fuel rest layout (acc ++ [op]) aborted

/-- One step of the logical-qubit scan of `optimize`: a `TryTwoQubitOp`
contributes its control and target, a `SingleQubitGateOp` its qubit. -/
def refStep (acc : List Int) (op : Op) : List Int :=
  match op with
  | .tryTwoQubit _ c tg => insertUniq (insertUniq acc c) tg
  | .singleGate _ q => insertUniq acc q
  | _ => acc

/-- The logical-qubit scan of `optimize`: every qubit referenced by a
single- or two-qubit gate, in first-reference order. -/
def referencedQubits (ir : List Op) : List Int :=
  ir.foldl refStep []

/-- `num_qubits = max(id) + 1` over the referenced qubits, 0 when none. -/
def numQubitsOf (ir : List Op) : Int :=
  match referencedQubits ir with
  | [] => 0
  | x :: xs => xs.foldl max x + 1

/-- `QMapOptimizerPass.initialize_layout`: the identity layout on
`range(num_qubits)` (empty when `num_qubits ≤ 0`). -/
def initializeLayout (numQubits : Int) : List (Int × Int) :=
  (List.range numQubits.toNat).map (fun i => (Int.ofNat i, Int.ofNat i))

/-- `QMapOptimizerPass.optimize`, fuelled on the inner SWAP loop. -/
def optimize (t : Topology) (fuel : Nat) (ir : List Op) : OptResult :=
  let layout := initializeLayout (numQubitsOf ir)
  optimizeGo t fuel ir layout [Op.currentLayout layout] false

/-- Router-only construct test: `InsertSwap` and `LayoutMark` operations
(the two kinds §4.2 forbids in input IRs). -/
def isRouterOp : Op → Bool
  | .insertSwap _ _ _ => true
  | .currentLayout _ => true
  | _ => false

/-- `InsertSwap` test. -/
def isSwapOp : Op → Bool
  | .insertSwap _ _ _ => true
  | _ => false

/-- The layout snapshot of the most recent `LayoutMark` at the end of an
operation sequence, starting from `m`. -/
def lastMark (m : List (Int × Int)) : List Op → List (Int × Int)
  | [] => m
  | .currentLayout l :: rest => lastMark l rest
  | _ :: rest => lastMark m rest

/-- The §8.1 output invariant, as a check over an operation sequence: every
`TryTwoQubit`, with its operands translated through the most recent
preceding `LayoutMark`, must lie on an adjacent physical pair (a failed
translation counts as a violation). -/
def routedAdjacent (t : Topology) (m : List (Int × Int)) : List Op → Bool
  | [] => true
  | .currentLayout l :: rest => routedAdjacent t l rest
  | .tryTwoQubit _ c tg :: rest =>
    (match dictLookup m c, dictLookup m tg with
     | some p1, some p2 => areAdjacent t p1 p2
     | _, _ => false) && routedAdjacent t m rest
  | _ :: rest => routedAdjacent t m rest

/-- Modelled from the spec (§4.4): the front-layer walk in the spec's own
words — skip a single-qubit gate, append a `TryTwoQubit(ctl, tgt)` and mark
both qubits used when `{ctl, tgt} ∩ U = ∅`, otherwise stop the walk.
Operation kinds §4.2 excludes from inputs are skipped like single-qubit
gates.  Used by the claim C6 refinement comparison. -/
def specFrontGo : List Op → List Int → List TwoQ → List TwoQ
  | [], _, front => front
  | .singleGate _ _ :: rest, used, front => specFrontGo rest used front
  | .tryTwoQubit g c tg :: rest, used, front =>
    if ([c, tg].inter used).isEmpty then
      specFrontGo rest (used ++ [c, tg]) (front ++ [⟨g, c, tg⟩])
    else
      front
  | _ :: rest, used, front => specFrontGo rest used front

/-- Modelled from the spec (§4.4): front layer of an IR suffix. -/
def specFrontLayer (remainingOps : List Op) : List TwoQ :=
  specFrontGo remainingOps [] []

/-- Modelled from the spec (§4.5): the candidate set
`{ unordered pair (p, n) : p ∈ PQ, n ∈ topology.neighbours(p) }` with
`PQ = { L.of(q) : q a front-layer logical qubit }` — the neighbour id is
used as is, with no label re-parsing.  Used by the claim C4 comparison. -/
def specCandidateSwaps (t : Topology) (layout : List (Int × Int))
    (frontLayer : List TwoQ) : List (Int × Int) :=
  let logicalInFront := frontLayer.foldl
    (fun acc g => insertUniq (insertUniq acc g.control) g.target) []
  let physicalInFront := logicalInFront.foldl
    (fun acc lq =>
      match dictLookup layout lq with
      | some pq => insertUniq acc pq
      | none => acc) []
  physicalInFront.foldl
    (fun acc pq =>
      (getNeighbors t pq).foldl
        (fun acc2 nb => insertUniqPair acc2 (sortPair pq nb))
        acc)
    []

/-- The key list (domain) of a layout. -/
def layoutKeys (layout : List (Int × Int)) : List Int :=
  layout.map (·.1)

/-- The layout after the router's first SWAP (9, 10) when routing
`CNOT(10, 12)` on the heavy-hex topology from the identity layout on
`[0, 13)`: logical 9 and 10 exchanged. -/
def hhS1 : List (Int × Int) :=
  [(0, 0), (1, 1), (2, 2), (3, 3), (4, 4), (5, 5), (6, 6), (7, 7), (8, 8),
   (9, 10), (10, 9), (11, 11), (12, 12)]

/-- The layout one SWAP (8, 9) after `hhS1`: the router's inner loop then
oscillates between `hhS1` and `hhS2` forever. -/
def hhS2 : List (Int × Int) :=
  [(0, 0), (1, 1), (2, 2), (3, 3), (4, 4), (5, 5), (6, 6), (7, 7), (8, 9),
   (9, 10), (10, 8), (11, 11), (12, 12)]

/- Batteries marks the `Rat` arithmetic `@[irreducible]`; the concrete
evaluations below need it unfolded (the kernel re-checks them anyway). -/
set_option allowUnsafeReducibility true
attribute [local semireducible] Rat.add Rat.sub Rat.mul Rat.inv
  Rat.ofScientific
set_option maxRecDepth 1000000

theorem contains_insertUniq (l : List Int) (x y : Int) :
    (insertUniq l x).contains y = (l.contains y || y == x) := by
  unfold insertUniq
  by_cases h : l.contains x = true
  · rw [if_pos h]
    by_cases hy : y = x
    · subst hy; simp_all
    · simp [hy]
  · rw [if_neg h]
    by_cases hy : y = x <;>
      simp [hy, List.contains, List.elem_eq_mem, List.mem_append]

theorem mem_insertUniq (l : List Int) (x y : Int) :
    y ∈ insertUniq l x ↔ y ∈ l ∨ y = x := by
  have := contains_insertUniq l x y
  simp only [List.contains, List.elem_eq_mem, decide_eq_true_eq] at this
  constructor
  · intro hm
    have : (decide (y ∈ l) || y == x) = true := by
      rw [← this]; exact decide_eq_true hm
    rcases Bool.or_eq_true_iff.mp this with h1 | h1
    · exact Or.inl (of_decide_eq_true h1)
    · exact Or.inr (eq_of_beq h1)
  · intro hm
    have hb : (decide (y ∈ l) || y == x) = true := by
      rcases hm with h1 | h1
      · simp [h1]
      · simp [h1]
    rw [← this] at hb
    exact of_decide_eq_true hb

/-- Claim C6: for every operation list, the front layer is computed by a
single forward walk that skips single-qubit gates, appends every
`TryTwoQubit` whose control and target are both unused (marking both used),
and stops the whole walk at the first `TryTwoQubit` that clashes with the
collected gates — i.e. `_build_front_layer` computes exactly the walk of
spec §4.4. -/
theorem claim6_front_layer (remainingOps : List Op) :
    buildFrontLayer remainingOps = specFrontLayer remainingOps := by
  suffices h : ∀ ops (u1 u2 : List Int) front,
      (∀ x, x ∈ u1 ↔ x ∈ u2) →
      buildFrontGo ops u1 front = specFrontGo ops u2 front by
    exact h remainingOps [] [] [] (fun x => Iff.rfl)
  intro ops
  induction ops with
  | nil => intro u1 u2 front _; rfl
  | cons op rest ih =>
    intro u1 u2 front hu
    cases op with
    | singleGate g q => exact ih u1 u2 front hu
    | insertSwap a b c => exact ih u1 u2 front hu
    | currentLayout l => exact ih u1 u2 front hu
    | tryTwoQubit g c tg =>
      show (if !u1.contains c && !u1.contains tg then _ else _) =
        (if ([c, tg].inter u2).isEmpty then _ else _)
      have hc : ∀ x, u1.contains x = u2.contains x := by
        intro x
        simp only [List.contains, List.elem_eq_mem]
        exact decide_eq_decide.mpr (hu x)
      have hcond : (!u1.contains c && !u1.contains tg) =
          ([c, tg].inter u2).isEmpty := by
        rw [hc c, hc tg]
        by_cases h1 : c ∈ u2 <;> by_cases h2 : tg ∈ u2 <;>
          simp [h1, h2, List.inter, List.filter, List.contains,
            List.elem_eq_mem]
      rw [hcond]
      by_cases hif : ([c, tg].inter u2).isEmpty = true
      · rw [if_pos hif, if_pos hif]
        apply ih
        intro x
        rw [mem_insertUniq, mem_insertUniq]
        simp only [List.mem_append, List.mem_cons, List.mem_singleton]
        constructor
        · rintro ((h | h) | h)
          · exact Or.inl ((hu x).mp h)
          · exact Or.inr (Or.inl h)
          · exact Or.inr (Or.inr (Or.inl h))
        · rintro (h | h | h | h)
          · exact Or.inl (Or.inl ((hu x).mpr h))
          · exact Or.inl (Or.inr h)
          · exact Or.inr h
          · exact absurd h (by simp)
      · rw [if_neg hif, if_neg hif]

theorem routeGate_hh_cycle (fuel : Nat) : ∀ s n,
    (routeGate heavyHexTopology 10 12 [Op.tryTwoQubit "CNOT" 10 12] fuel
      hhS1 s n = none) ∧
    (routeGate heavyHexTopology 10 12 [Op.tryTwoQubit "CNOT" 10 12] fuel
      hhS2 s n = none) := by
  induction fuel with
  | zero => intro s n; exact ⟨rfl, rfl⟩
  | succ m ih =>
    intro s n
    refine ⟨?_, ?_⟩
    · have step :
          routeGate heavyHexTopology 10 12 [Op.tryTwoQubit "CNOT" 10 12]
            (m + 1) hhS1 s n =
          routeGate heavyHexTopology 10 12 [Op.tryTwoQubit "CNOT" 10 12]
            m hhS2 (s ++ [Op.insertSwap 8 9 (1 / 100)]) (n + 1) := rfl
      rw [step]
      exact (ih _ _).2
    · have step :
          routeGate heavyHexTopology 10 12 [Op.tryTwoQubit "CNOT" 10 12]
            (m + 1) hhS2 s n =
          routeGate heavyHexTopology 10 12 [Op.tryTwoQubit "CNOT" 10 12]
            m hhS1 (s ++ [Op.insertSwap 8 9 (1 / 100)]) (n + 1) := rfl
      rw [step]
      exact (ih _ _).1

/-- Claim C3: the claim requires the inner SWAP loop to insert at most
`diameter × |F|` SWAPs and abort at that ceiling.  The code has no such
bound: routing `CNOT(10, 12)` on the heavy-hex topology (diameter 7, front
layer of size 1) never terminates for any amount of fuel — after the first
SWAP (9, 10) the loop swaps (8, 9) back and forth forever, so more than 7
SWAPs are inserted and no abort ever happens. -/
theorem claim3_no_safety_bound (fuel : Nat) :
    optimize heavyHexTopology fuel [Op.tryTwoQubit "CNOT" 10 12] =
      .outOfFuel := by
  have hroute : ∀ f,
      routeGate heavyHexTopology 10 12 [Op.tryTwoQubit "CNOT" 10 12] f
        (initializeLayout 13) [] 0 = none := by
    intro f
    cases f with
    | zero => rfl
    | succ m =>
      have step :
          routeGate heavyHexTopology 10 12 [Op.tryTwoQubit "CNOT" 10 12]
            (m + 1) (initializeLayout 13) [] 0 =
          routeGate heavyHexTopology 10 12 [Op.tryTwoQubit "CNOT" 10 12]
            m hhS1 [Op.insertSwap 9 10 (1 / 100)] 1 := rfl
      rw [step]
      exact (routeGate_hh_cycle m _ _).1
  show optimizeGo heavyHexTopology fuel [Op.tryTwoQubit "CNOT" 10 12]
      (initializeLayout 13) [Op.currentLayout (initializeLayout 13)] false =
    .outOfFuel
  unfold optimizeGo
  simp only [hroute fuel]

theorem routeGate_linear_self_cycle (fuel : Nat) : ∀ s n,
    (routeGate linearTopology 0 0 [Op.tryTwoQubit "CNOT" 0 0] fuel
      [(0, 0)] s n = none) ∧
    (routeGate linearTopology 0 0 [Op.tryTwoQubit "CNOT" 0 0] fuel
      [(0, 1)] s n = none) := by
  induction fuel with
  | zero => intro s n; exact ⟨rfl, rfl⟩
  | succ m ih =>
    intro s n
    refine ⟨?_, ?_⟩
    · have step :
          routeGate linearTopology 0 0 [Op.tryTwoQubit "CNOT" 0 0]
            (m + 1) [(0, 0)] s n =
          routeGate linearTopology 0 0 [Op.tryTwoQubit "CNOT" 0 0]
            m [(0, 1)] (s ++ [Op.insertSwap 0 1 0]) (n + 1) := rfl
      rw [step]
      exact (ih _ _).2
    · have step :
          routeGate linearTopology 0 0 [Op.tryTwoQubit "CNOT" 0 0]
            (m + 1) [(0, 1)] s n =
          routeGate linearTopology 0 0 [Op.tryTwoQubit "CNOT" 0 0]
            m [(0, 0)] (s ++ [Op.insertSwap 0 1 0]) (n + 1) := rfl
      rw [step]
      exact (ih _ _).1

/-- Claim C9: the claim says an input violating §4.2 well-formedness (here a
`TryTwoQubitOp` with control = target) makes the pass surface a
`MalformedInput` error and emit no IR.  The code performs no validation at
all: on `CNOT(0, 0)` it enters the SWAP loop — a qubit can never become
adjacent to itself, a best SWAP always exists on the linear topology — and
loops forever (never terminating for any fuel), surfacing nothing. -/
theorem claim9_no_malformed_input_check (fuel : Nat) :
    optimize linearTopology fuel [Op.tryTwoQubit "CNOT" 0 0] =
      .outOfFuel := by
  have hroute : ∀ f,
      routeGate linearTopology 0 0 [Op.tryTwoQubit "CNOT" 0 0] f
        [(0, 0)] [] 0 = none := by
    intro f
    exact (routeGate_linear_self_cycle f [] 0).1
  show optimizeGo linearTopology fuel [Op.tryTwoQubit "CNOT" 0 0]
      [(0, 0)] [Op.currentLayout [(0, 0)]] false = .outOfFuel
  unfold optimizeGo
  simp only [hroute fuel]

/-- Claim C4: the candidate-SWAP set the code enumerates is **not** the
spec's set `{ (p, n) : p ∈ PQ, n ∈ neighbours(p) }` once a physical id
exceeds 9: the code reconstructs the neighbour id from the label character
`'P10'[1]`, i.e. its first digit.  For the front layer `[CNOT(9, 11)]` on
the heavy-hex topology under the identity layout, the spec set contains the
edge (9, 10) and not (1, 9); the code produces the opposite — (1, 9) is not
even an edge of the topology. -/
theorem claim4_candidate_set_digit_bug :
    ((9, 10) ∈ specCandidateSwaps heavyHexTopology (initializeLayout 14)
      [⟨"CNOT", 9, 11⟩]) ∧
    ((9, 10) ∉ getCandidateSwaps heavyHexTopology (initializeLayout 14)
      [⟨"CNOT", 9, 11⟩]) ∧
    ((1, 9) ∈ getCandidateSwaps heavyHexTopology (initializeLayout 14)
      [⟨"CNOT", 9, 11⟩]) ∧
    ((1, 9) ∉ specCandidateSwaps heavyHexTopology (initializeLayout 14)
      [⟨"CNOT", 9, 11⟩]) ∧
    areAdjacent heavyHexTopology 1 9 = false ∧
    areAdjacent heavyHexTopology 9 10 = true := by
  refine ⟨?_, ?_, ?_, ?_, ?_, ?_⟩ <;> decide

/-- Claim C7 counterexample: `LinearTopology.get_fidelity` returns the
constant 1.0, so the non-edge (0, 2) — `are_adjacent` is false — has
fidelity 1, not 0 as the claim states. -/
theorem claim7_fidelity_counterexample :
    areAdjacent linearTopology 0 2 = false ∧
    linearTopology.fid 0 2 = 1 ∧ linearTopology.fid 0 2 ≠ 0 := by
  refine ⟨rfl, rfl, ?_⟩
  intro h
  exact absurd (congrArg Rat.num h) (by decide)

theorem graph_find_none (t : Topology) (a : Int)
    (h : a ∉ t.graph.map Prod.fst) :
    t.graph.find? (fun kv => kv.1 == a) = none := by
  rw [List.find?_eq_none]
  intro kv hkv hbeq
  exact h (List.mem_map.mpr ⟨kv, hkv, eq_of_beq hbeq⟩)

theorem bfsAux_nil (t : Topology) (e : Int) (f : Nat) (vis : List Int) :
    bfsAux t e f vis [] = [] := by
  cases f <;> rfl

theorem getNeighbors_unknown (t : Topology) (a : Int)
    (h : a ∉ t.graph.map Prod.fst) : getNeighbors t a = [] := by
  unfold getNeighbors
  rw [graph_find_none t a h]
  rfl

theorem areAdjacent_unknown (t : Topology) (a b : Int)
    (h : a ∉ t.graph.map Prod.fst) : areAdjacent t a b = false := by
  unfold areAdjacent
  rw [graph_find_none t a h]

theorem shortestPath_unknown (t : Topology) (a b : Int)
    (h : a ∉ t.graph.map Prod.fst) (hne : a ≠ b) :
    shortestPath t a b = [] := by
  have hab : (a == b) = false := by
    simp [hne]
  unfold shortestPath
  rw [hab]
  simp only [Bool.false_eq_true, if_false]
  rw [bfsAux]
  simp only [getNeighbors_unknown t a h, bfsScan, bfsAux_nil]

theorem heavyHexFidelities_edges :
    heavyHexFidelities.all
      (fun kv => areAdjacent heavyHexTopology kv.1.1 kv.1.2) = true := by
  decide

/-- Claim C7, amended: `HeavyHexTopology.get_fidelity` returns 0 on every
non-edge (unknown identifiers included), but `LinearTopology` and
`Grid2x2Topology` return the constant 1.0 for **every** pair, edges or not;
the remaining topology queries (`are_adjacent`, `get_neighbors`,
`shortest_path`) do return the no-connection answer (false / empty / no
path) on unknown identifiers rather than raising. -/
theorem claim7_fidelity_amended :
    (∀ a b : Int, areAdjacent heavyHexTopology a b = false →
      heavyHexTopology.fid a b = 0) ∧
    (∀ a b : Int, linearTopology.fid a b = 1 ∧ grid2x2Topology.fid a b = 1) ∧
    (∀ (t : Topology) (a b : Int), a ∉ t.graph.map Prod.fst →
      areAdjacent t a b = false ∧ getNeighbors t a = [] ∧
        (a ≠ b → shortestPath t a b = [])) := by
  refine ⟨?_, fun a b => ⟨rfl, rfl⟩, ?_⟩
  · intro a b hadj
    show (dictLookupG heavyHexFidelities (a, b)).getD 0 = 0
    unfold dictLookupG
    cases hfind : heavyHexFidelities.find? (fun kv => kv.1 == (a, b)) with
    | none => rfl
    | some kv =>
      have hmem := List.mem_of_find?_eq_some hfind
      have hp := List.find?_some hfind
      have hkey : kv.1 = (a, b) := by simpa using hp
      have hall := List.all_eq_true.mp heavyHexFidelities_edges kv hmem
      rw [hkey] at hall
      rw [hall] at hadj
      exact absurd hadj (by simp)
  · intro t a b h
    exact ⟨areAdjacent_unknown t a b h, getNeighbors_unknown t a h,
      shortestPath_unknown t a b h⟩

/-- Claim C7 witness: the amended theorem applied at concrete inputs —
fidelity 0 on the heavy-hex non-edge (0, 5), constant fidelity 1 on the
linear non-edge (0, 2), and no-connection answers for the unknown
identifier 99 on the linear topology. -/
theorem claim7_fidelity_amended_witness :
    heavyHexTopology.fid 0 5 = 0 ∧ linearTopology.fid 0 2 = 1 ∧
    areAdjacent linearTopology 99 0 = false ∧
    getNeighbors linearTopology 99 = [] ∧
    shortestPath linearTopology 99 0 = [] := by
  refine ⟨claim7_fidelity_amended.1 0 5 (by decide),
    (claim7_fidelity_amended.2.1 0 2).1,
    (claim7_fidelity_amended.2.2 linearTopology 99 0 (by decide)).1,
    (claim7_fidelity_amended.2.2 linearTopology 99 0 (by decide)).2.1,
    (claim7_fidelity_amended.2.2 linearTopology 99 0 (by decide)).2.2
      (by decide)⟩

theorem selectLoop_min (t : Topology) (layout : List (Int × Int))
    (front : List TwoQ) :
    ∀ (l : List (Int × Int)) (acc : Option ((Int × Int × ℚ) × ℚ))
      (res : (Int × Int × ℚ) × ℚ),
      selectLoop t layout front l acc = some res →
      ((∃ c ∈ l, res = ((c.1, c.2, 1 - t.fid c.1 c.2),
          combinedScore t layout front c)) ∨ acc = some res) ∧
      (∀ c ∈ l, res.2 ≤ combinedScore t layout front c) ∧
      (∀ s, acc = some s → res.2 ≤ s.2) := by
  intro l
  induction l with
  | nil =>
    intro acc res h
    simp only [selectLoop] at h
    refine ⟨Or.inr h, by simp, ?_⟩
    intro s hs
    rw [h] at hs
    cases hs
    exact le_refl _
  | cons c rest ih =>
    intro acc res h
    rcases acc with _ | ⟨sd, sc⟩
    · simp only [selectLoop] at h
      obtain ⟨h1, h2, h3⟩ := ih _ res h
      have hhead : res.2 ≤ combinedScore t layout front c := h3 _ rfl
      refine ⟨?_, ?_, ?_⟩
      · rcases h1 with ⟨c2, hc2, hres⟩ | hacc
        · exact Or.inl ⟨c2, List.mem_cons_of_mem _ hc2, hres⟩
        · cases hacc
          exact Or.inl ⟨c, List.mem_cons_self _ _, rfl⟩
      · intro c2 hc2
        rcases List.mem_cons.mp hc2 with hh | ht
        · rw [hh]
          exact hhead
        · exact h2 c2 ht
      · intro s hs
        cases hs
    · simp only [selectLoop] at h
      by_cases hlt : combinedScore t layout front c < sc
      · simp only [hlt, decide_True, if_pos] at h
        obtain ⟨h1, h2, h3⟩ := ih _ res h
        have hhead : res.2 ≤ combinedScore t layout front c := h3 _ rfl
        refine ⟨?_, ?_, ?_⟩
        · rcases h1 with ⟨c2, hc2, hres⟩ | hacc
          · exact Or.inl ⟨c2, List.mem_cons_of_mem _ hc2, hres⟩
          · cases hacc
            exact Or.inl ⟨c, List.mem_cons_self _ _, rfl⟩
        · intro c2 hc2
          rcases List.mem_cons.mp hc2 with hh | ht
          · rw [hh]
            exact hhead
          · exact h2 c2 ht
        · intro s hs
          cases hs
          exact le_trans hhead (le_of_lt hlt)
      · simp only [hlt, decide_False, if_neg, Bool.false_eq_true] at h
        obtain ⟨h1, h2, h3⟩ := ih _ res h
        have hge : sc ≤ combinedScore t layout front c := le_of_not_lt hlt
        refine ⟨?_, ?_, ?_⟩
        · rcases h1 with ⟨c2, hc2, hres⟩ | hacc
          · exact Or.inl ⟨c2, List.mem_cons_of_mem _ hc2, hres⟩
          · exact Or.inr hacc
        · intro c2 hc2
          rcases List.mem_cons.mp hc2 with hh | ht
          · rw [hh]
            exact le_trans (h3 _ rfl) hge
          · exact h2 c2 ht
        · intro s hs
          cases hs
          exact h3 _ rfl

theorem bfsScan_finds (e : Int) (path : List Int) :
    ∀ (ns visited : List Int) (queue : List (Int × List Int)),
      ns.contains e = true →
      ∃ v q, bfsScan e path ns visited queue = (some (path ++ [e]), v, q) := by
  intro ns
  induction ns with
  | nil => intro visited queue h; cases h
  | cons n rest ih =>
    intro visited queue h
    by_cases hn : n = e
    · subst hn
      exact ⟨visited, queue, by simp [bfsScan]⟩
    · have hrest : rest.contains e = true := by
        simp only [List.contains_cons] at h
        rcases Bool.or_eq_true_iff.mp h with h1 | h1
        · exact absurd (eq_of_beq h1).symm hn
        · exact h1
      have hne : (n == e) = false := by
        simp [hn]
      by_cases hv : n ∈ visited
      · obtain ⟨v, q, hvq⟩ := ih visited queue hrest
        exact ⟨v, q, by rw [bfsScan, hne]; simpa [hv] using hvq⟩
      · obtain ⟨v, q, hvq⟩ := ih (visited ++ [n]) (queue ++ [(n, path ++ [n])])
          hrest
        refine ⟨v, q, ?_⟩
        rw [bfsScan, hne]
        simpa [hv] using hvq

theorem shortestPath_adjacent (t : Topology) (a b : Int) (hne : a ≠ b)
    (hnb : (getNeighbors t a).contains b = true) :
    shortestPath t a b = [a, b] := by
  have hab : (a == b) = false := by
    simp [hne]
  unfold shortestPath
  rw [hab]
  simp only [Bool.false_eq_true, if_false]
  rw [bfsAux]
  obtain ⟨v, q, hvq⟩ := bfsScan_finds b [a] (getNeighbors t a) [a] [] hnb
  rw [hvq]
  rfl

theorem areAdjacent_neighbors (t : Topology) (a b : Int)
    (h : areAdjacent t a b = true) :
    (getNeighbors t a).contains b = true := by
  unfold areAdjacent at h
  unfold getNeighbors
  cases hfind : t.graph.find? (fun kv => kv.1 == a) with
  | none => rw [hfind] at h; cases h
  | some kv => rw [hfind] at h; simpa using h

/-- Claim C5: the selection score of a candidate `(p1, p2)` is the
look-ahead distance of the trial layout plus `(1 − fidelity(p1, p2)) · 10`,
and `_select_best_swap` returns a candidate minimising it (so among
candidates of equal distance cost, one with strictly lower fidelity is
never selected); in the distance sum an adjacent pair contributes 1
(`len(path) − 1` on a two-node path) and a disconnected pair contributes
0. -/
theorem claim5_score_and_selection (t : Topology) (layout : List (Int × Int))
    (front : List TwoQ) :
    (∀ p1 p2 cost, selectBestSwap t layout front = some (p1, p2, cost) →
      (p1, p2) ∈ getCandidateSwaps t layout front ∧
      cost = 1 - t.fid p1 p2 ∧
      combinedScore t layout front (p1, p2) =
        calculateScore t (applySwapToLayout layout p1 p2) front +
          (1 - t.fid p1 p2) * 10 ∧
      ∀ c ∈ getCandidateSwaps t layout front,
        combinedScore t layout front (p1, p2) ≤
          combinedScore t layout front c) ∧
    (∀ c1 c2, c1 ∈ getCandidateSwaps t layout front →
      c2 ∈ getCandidateSwaps t layout front →
      calculateScore t (applySwapToLayout layout c1.1 c1.2) front =
        calculateScore t (applySwapToLayout layout c2.1 c2.2) front →
      t.fid c2.1 c2.2 < t.fid c1.1 c1.2 →
      ∀ cost, selectBestSwap t layout front ≠ some (c2.1, c2.2, cost)) ∧
    (∀ a b : Int, a ≠ b → areAdjacent t a b = true →
      (if (shortestPath t a b).isEmpty then (0 : ℚ)
        else (((shortestPath t a b).length - 1 : ℕ) : ℚ)) = 1) ∧
    (∀ a b : Int, shortestPath t a b = [] →
      (if (shortestPath t a b).isEmpty then (0 : ℚ)
        else (((shortestPath t a b).length - 1 : ℕ) : ℚ)) = 0) := by
  have hpart1 : ∀ p1 p2 cost,
      selectBestSwap t layout front = some (p1, p2, cost) →
      (p1, p2) ∈ getCandidateSwaps t layout front ∧
      cost = 1 - t.fid p1 p2 ∧
      combinedScore t layout front (p1, p2) =
        calculateScore t (applySwapToLayout layout p1 p2) front +
          (1 - t.fid p1 p2) * 10 ∧
      ∀ c ∈ getCandidateSwaps t layout front,
        combinedScore t layout front (p1, p2) ≤
          combinedScore t layout front c := by
    intro p1 p2 cost h
    unfold selectBestSwap at h
    by_cases hfe : front.isEmpty = true
    · rw [if_pos hfe] at h
      cases h
    · rw [if_neg hfe] at h
      by_cases hce : (getCandidateSwaps t layout front).isEmpty = true
      · rw [if_pos hce] at h
        cases h
      · rw [if_neg hce] at h
        obtain ⟨res, hres, h1⟩ := Option.map_eq_some'.mp h
        obtain ⟨hmem, hmin, _⟩ :=
          selectLoop_min t layout front (getCandidateSwaps t layout front)
            none res hres
        rcases hmem with ⟨c, hc, hresEq⟩ | habs
        · rw [hresEq] at h1 hmin
          simp only at h1
          have hc1 : c.1 = p1 := congrArg (fun x => x.1) h1
          have hc2 : c.2 = p2 := congrArg (fun x => x.2.1) h1
          have hcost : (1 : ℚ) - t.fid c.1 c.2 = cost :=
            congrArg (fun x => x.2.2) h1
          have hpair : (p1, p2) = c := by
            rw [← hc1, ← hc2]
          refine ⟨hpair ▸ hc, ?_, rfl, ?_⟩
          · rw [← hcost, hc1, hc2]
          · intro c2 hc2mem
            rw [hpair]
            exact hmin c2 hc2mem
        · cases habs
  refine ⟨hpart1, ?_, ?_, ?_⟩
  · intro c1 c2 hc1 hc2 hdist hfid cost h
    obtain ⟨_, _, _, hmin⟩ := hpart1 c2.1 c2.2 cost h
    have hle := hmin c1 hc1
    have hlt : combinedScore t layout front c1 <
        combinedScore t layout front (c2.1, c2.2) := by
      unfold combinedScore
      simp only
      rw [hdist]
      have h10 : (1 - t.fid c2.1 c2.2) * 10 - (1 - t.fid c1.1 c1.2) * 10 =
          (t.fid c1.1 c1.2 - t.fid c2.1 c2.2) * 10 := by ring
      nlinarith [hfid]
    exact absurd hle (not_le.mpr hlt)
  · intro a b hne hadj
    rw [shortestPath_adjacent t a b hne (areAdjacent_neighbors t a b hadj)]
    simp
  · intro a b h
    rw [h]
    simp

/-- Claim C5 witness: on the linear topology with the identity layout and
front layer `[CNOT(0, 2)]`, the selected SWAP (0, 1) is a candidate and its
combined score is minimal (e.g. against the other candidate (1, 2)). -/
theorem claim5_score_and_selection_witness :
    (0, 1) ∈ getCandidateSwaps linearTopology [(0, 0), (1, 1), (2, 2)]
      [⟨"CNOT", 0, 2⟩] ∧
    combinedScore linearTopology [(0, 0), (1, 1), (2, 2)] [⟨"CNOT", 0, 2⟩]
        (0, 1) ≤
      combinedScore linearTopology [(0, 0), (1, 1), (2, 2)] [⟨"CNOT", 0, 2⟩]
        (1, 2) := by
  have h := (claim5_score_and_selection linearTopology
    [(0, 0), (1, 1), (2, 2)] [⟨"CNOT", 0, 2⟩]).1 0 1 0 (by decide)
  exact ⟨h.1, h.2.2.2 (1, 2) (by decide)⟩

theorem dictLookup_isSome_iff (l : List (Int × Int)) (k : Int) :
    (dictLookup l k).isSome = true ↔ k ∈ layoutKeys l := by
  unfold dictLookup dictLookupG layoutKeys
  rw [Option.isSome_map']
  rw [List.find?_isSome]
  constructor
  · rintro ⟨kv, hkv, hbeq⟩
    exact List.mem_map.mpr ⟨kv, hkv, eq_of_beq hbeq⟩
  · rintro hmem
    obtain ⟨kv, hkv, hfst⟩ := List.mem_map.mp hmem
    exact ⟨kv, hkv, by simp [hfst]⟩

theorem dictSet_keys (l : List (Int × Int)) (k v : Int)
    (h : k ∈ layoutKeys l) : layoutKeys (dictSet l k v) = layoutKeys l := by
  have hsome : (l.find? (fun kv => kv.1 == k)).isSome = true := by
    rw [List.find?_isSome]
    obtain ⟨kv, hkv, hfst⟩ := List.mem_map.mp h
    exact ⟨kv, hkv, by simp [hfst]⟩
  unfold dictSet dictSetG layoutKeys
  rw [if_pos hsome, List.map_map]
  apply List.map_congr_left
  intro kv _
  by_cases hk : (kv.1 == k) = true
  · simp only [Function.comp, hk, if_pos]
    exact (eq_of_beq hk).symm
  · simp only [Function.comp, hk]
    rw [if_neg (by simp [hk])]

theorem findOccupants_mem_aux (p1 p2 : Int) (P : Int → Prop) :
    ∀ (l : List (Int × Int)) (acc : Option Int × Option Int),
      (∀ lq, acc.1 = some lq → P lq) →
      (∀ lq, acc.2 = some lq → P lq) →
      (∀ kv ∈ l, P kv.1) →
      (∀ lq, (l.foldl (fun acc kv =>
          if kv.2 == p1 then (some kv.1, acc.2)
          else if kv.2 == p2 then (acc.1, some kv.1)
          else acc) acc).1 = some lq → P lq) ∧
      (∀ lq, (l.foldl (fun acc kv =>
          if kv.2 == p1 then (some kv.1, acc.2)
          else if kv.2 == p2 then (acc.1, some kv.1)
          else acc) acc).2 = some lq → P lq) := by
  intro l
  induction l with
  | nil =>
    intro acc h1 h2 _
    exact ⟨h1, h2⟩
  | cons kv rest ih =>
    intro acc h1 h2 hl
    have hhead : P kv.1 := hl kv (List.mem_cons_self _ _)
    have htail : ∀ kv2 ∈ rest, P kv2.1 :=
      fun kv2 hkv2 => hl kv2 (List.mem_cons_of_mem _ hkv2)
    simp only [List.foldl_cons]
    by_cases hp1 : (kv.2 == p1) = true
    · rw [if_pos hp1]
      exact ih (some kv.1, acc.2)
        (fun lq hlq => by cases hlq; exact hhead) h2 htail
    · rw [if_neg (by simp at hp1 ⊢; exact hp1)]
      by_cases hp2 : (kv.2 == p2) = true
      · rw [if_pos hp2]
        exact ih (acc.1, some kv.1) h1
          (fun lq hlq => by cases hlq; exact hhead) htail
      · rw [if_neg (by simp at hp2 ⊢; exact hp2)]
        exact ih acc h1 h2 htail

theorem findOccupants_mem (l : List (Int × Int)) (p1 p2 : Int) :
    (∀ lq, (findOccupants l p1 p2).1 = some lq → lq ∈ layoutKeys l) ∧
    (∀ lq, (findOccupants l p1 p2).2 = some lq → lq ∈ layoutKeys l) := by
  have := findOccupants_mem_aux p1 p2 (fun lq => lq ∈ layoutKeys l) l
    (none, none) (by intro lq h; cases h) (by intro lq h; cases h)
    (fun kv hkv => List.mem_map.mpr ⟨kv, hkv, rfl⟩)
  exact this

theorem applySwap_keys (l : List (Int × Int)) (p1 p2 : Int) :
    layoutKeys (applySwapToLayout l p1 p2) = layoutKeys l := by
  unfold applySwapToLayout
  obtain ⟨hm1, hm2⟩ := findOccupants_mem l p1 p2
  cases ho1 : (findOccupants l p1 p2).1 with
  | none =>
    cases ho2 : (findOccupants l p1 p2).2 with
    | none => simp [ho1, ho2]
    | some lq2 =>
      simp only [ho1, ho2]
      exact dictSet_keys l lq2 p1 (hm2 lq2 ho2)
  | some lq1 =>
    cases ho2 : (findOccupants l p1 p2).2 with
    | none =>
      simp only [ho1, ho2]
      exact dictSet_keys l lq1 p2 (hm1 lq1 ho1)
    | some lq2 =>
      simp only [ho1, ho2]
      rw [dictSet_keys _ lq2 p1, dictSet_keys l lq1 p2 (hm1 lq1 ho1)]
      rw [dictSet_keys l lq1 p2 (hm1 lq1 ho1)]
      exact hm2 lq2 ho2

theorem routeGate_facts (t : Topology) (c tg : Int) (rem : List Op) :
    ∀ (fuel : Nat) (layout : List (Int × Int)) (swaps : List Op) (n : Nat)
      (layout2 : List (Int × Int)) (swaps2 : List Op) (n2 : Nat) (ab : Bool),
      routeGate t c tg rem fuel layout swaps n =
        some (.done layout2 swaps2 n2 ab) →
      (∃ mid : List Op, swaps2 = swaps ++ mid ∧ mid.all isSwapOp = true) ∧
      n ≤ n2 ∧
      (n2 = n → layout2 = layout ∧ swaps2 = swaps) ∧
      (ab = false → ∃ p1 p2, dictLookup layout2 c = some p1 ∧
        dictLookup layout2 tg = some p2 ∧ areAdjacent t p1 p2 = true) ∧
      layoutKeys layout2 = layoutKeys layout := by
  intro fuel
  induction fuel with
  | zero => intro layout swaps n l2 s2 n2 ab h; cases h
  | succ m ih =>
    intro layout swaps n l2 s2 n2 ab h
    rw [routeGate] at h
    split at h
    · rename_i pq1 pq2 hc htg
      split at h
      · rename_i hadj
        simp only [Option.some.injEq, GateRouteOut.done.injEq] at h
        obtain ⟨hl, hs, hn, hab⟩ := h
        subst hl hs hn
        refine ⟨⟨[], by simp⟩, le_refl _, fun _ => ⟨rfl, rfl⟩, ?_, rfl⟩
        intro _
        exact ⟨pq1, pq2, hc, htg, hadj⟩
      · rename_i hnadj
        split at h
        · simp only [Option.some.injEq, GateRouteOut.done.injEq] at h
          obtain ⟨hl, hs, hn, hab⟩ := h
          subst hl hs hn
          refine ⟨⟨[], by simp⟩, le_refl _, fun _ => ⟨rfl, rfl⟩, ?_, rfl⟩
          intro hab2
          rw [← hab] at hab2
          cases hab2
        · rename_i q1 q2 cost hsel
          obtain ⟨⟨mid, hmid, hmidall⟩, hle, _, hadj2, hkeys⟩ :=
            ih _ _ _ l2 s2 n2 ab h
          refine ⟨⟨Op.insertSwap q1 q2 cost :: mid, ?_, ?_⟩, ?_, ?_, hadj2,
            ?_⟩
          · rw [hmid, List.append_assoc]
            rfl
          · simp only [List.all_cons, hmidall, Bool.and_true]
            rfl
          · omega
          · intro hn2
            omega
          · rw [hkeys, applySwap_keys]
    · rename_i hother
      simp at h

theorem optimizeGo_flag (t : Topology) (fuel : Nat) :
    ∀ (ops : List Op) (layout : List (Int × Int)) (acc : List Op)
      (out : List Op) (ab2 : Bool),
      optimizeGo t fuel ops layout acc true = .success out ab2 →
      ab2 = true := by
  intro ops
  induction ops with
  | nil =>
    intro layout acc out ab2 h
    simp only [optimizeGo, OptResult.success.injEq] at h
    exact h.2.symm
  | cons op rest ih =>
    intro layout acc out ab2 h
    cases op with
    | tryTwoQubit g c tg =>
      rw [optimizeGo] at h
      split at h
      · cases h
      · cases h
      · rename_i layout2 swaps numSwaps ab _
        exact ih _ _ _ _ h
    | singleGate g q => exact ih _ _ _ _ h
    | insertSwap a b q => exact ih _ _ _ _ h
    | currentLayout l => exact ih _ _ _ _ h

theorem lastMark_append (m : List (Int × Int)) (xs ys : List Op) :
    lastMark m (xs ++ ys) = lastMark (lastMark m xs) ys := by
  induction xs generalizing m with
  | nil => rfl
  | cons op rest ih =>
    cases op with
    | currentLayout l => exact ih l
    | singleGate g q => exact ih m
    | tryTwoQubit g c tg => exact ih m
    | insertSwap a b q => exact ih m

theorem routedAdjacent_append (t : Topology) (m : List (Int × Int))
    (xs ys : List Op) :
    routedAdjacent t m (xs ++ ys) =
      (routedAdjacent t m xs && routedAdjacent t (lastMark m xs) ys) := by
  induction xs generalizing m with
  | nil => simp [routedAdjacent, lastMark]
  | cons op rest ih =>
    cases op with
    | currentLayout l =>
      simp only [List.cons_append, routedAdjacent, lastMark]
      exact ih l
    | singleGate g q =>
      simp only [List.cons_append, routedAdjacent, lastMark]
      exact ih m
    | tryTwoQubit g c tg =>
      simp only [List.cons_append, routedAdjacent, lastMark, List.append_eq]
      rw [ih m, Bool.and_assoc]
    | insertSwap a b q =>
      simp only [List.cons_append, routedAdjacent, lastMark]
      exact ih m

theorem swapOps_lastMark (t : Topology) (m : List (Int × Int)) :
    ∀ (l : List Op), l.all isSwapOp = true →
      lastMark m l = m ∧ routedAdjacent t m l = true := by
  intro l
  induction l with
  | nil => intro _; exact ⟨rfl, rfl⟩
  | cons op rest ih =>
    intro h
    simp only [List.all_cons, Bool.and_eq_true] at h
    cases op with
    | insertSwap a b q =>
      simpa only [lastMark, routedAdjacent] using ih h.2
    | singleGate g q => cases h.1
    | tryTwoQubit g c tg => cases h.1
    | currentLayout l2 => cases h.1

theorem swapOps_filter : ∀ (l : List Op), l.all isSwapOp = true →
    l.filter (fun op => !isRouterOp op) = [] := by
  intro l
  induction l with
  | nil => intro _; rfl
  | cons op rest ih =>
    intro h
    simp only [List.all_cons, Bool.and_eq_true] at h
    cases op with
    | insertSwap a b q =>
      simp only [List.filter, isRouterOp, Bool.not_true]
      exact ih h.2
    | singleGate g q => cases h.1
    | tryTwoQubit g c tg => cases h.1
    | currentLayout l2 => cases h.1

theorem optimizeGo_filter (t : Topology) (fuel : Nat) :
    ∀ (ops : List Op) (layout : List (Int × Int)) (acc : List Op) (ab : Bool)
      (out : List Op) (ab2 : Bool),
      (∀ op ∈ ops, isRouterOp op = false) →
      optimizeGo t fuel ops layout acc ab = .success out ab2 →
      out.filter (fun op => !isRouterOp op) =
        acc.filter (fun op => !isRouterOp op) ++ ops := by
  intro ops
  induction ops with
  | nil =>
    intro layout acc ab out ab2 _ h
    simp only [optimizeGo, OptResult.success.injEq] at h
    rw [← h.1]
    simp
  | cons op rest ih =>
    intro layout acc ab out ab2 hwf h
    have hwfr : ∀ op2 ∈ rest, isRouterOp op2 = false :=
      fun op2 h2 => hwf op2 (List.mem_cons_of_mem _ h2)
    have hwfh : isRouterOp op = false := hwf op (List.mem_cons_self _ _)
    cases op with
    | singleGate g q =>
      have h2 : optimizeGo t fuel rest layout (acc ++ [Op.singleGate g q]) ab
          = .success out ab2 := h
      have hrec := ih layout (acc ++ [Op.singleGate g q]) ab out ab2 hwfr h2
      rw [hrec, List.filter_append]
      simp only [List.filter, isRouterOp, Bool.not_false, List.append_assoc,
        List.singleton_append]
    | insertSwap a b q => simp [isRouterOp] at hwfh
    | currentLayout l2 => simp [isRouterOp] at hwfh
    | tryTwoQubit g c tg =>
      rw [optimizeGo] at h
      split at h
      · cases h
      · cases h
      · rename_i layout2 swaps numSwaps ab3 hroute
        obtain ⟨⟨mid, hmid, hmidall⟩, _, _, _, _⟩ :=
          routeGate_facts t c tg (Op.tryTwoQubit g c tg :: rest) fuel layout
            [] 0 layout2 swaps numSwaps ab3 hroute
        have hswaps : swaps.all isSwapOp = true := by
          rw [hmid]
          simpa using hmidall
        have hswfilter : swaps.filter (fun op => !isRouterOp op) = [] :=
          swapOps_filter swaps hswaps
        by_cases hns : numSwaps > 0
        · rw [if_pos hns] at h
          have hrec := ih layout2
            (((acc ++ swaps) ++ [Op.currentLayout layout2]) ++
              [Op.tryTwoQubit g c tg]) (ab || ab3) out ab2 hwfr h
          rw [hrec]
          simp [List.filter_append, hswfilter, isRouterOp]
          intro a ha
          have hsw := List.all_eq_true.mp hswaps a ha
          cases a <;> simp_all [isSwapOp]
        · rw [if_neg hns] at h
          have hrec := ih layout2
            ((acc ++ swaps) ++ [Op.tryTwoQubit g c tg]) (ab || ab3) out ab2
            hwfr h
          rw [hrec]
          simp [List.filter_append, hswfilter, isRouterOp]
          intro a ha
          have hsw := List.all_eq_true.mp hswaps a ha
          cases a <;> simp_all [isSwapOp]

/-- Claim C2: for every well-formed input IR (free of the router-only
`InsertSwap`/`LayoutMark` kinds, per §4.2), the subsequence of operations of
the routed IR that are neither `InsertSwap` nor `LayoutMark` equals the
input IR pointwise — same kind, same gate name, same logical operands, same
order. -/
theorem claim2_gate_preservation (t : Topology) (fuel : Nat) (ir out : List Op)
    (ab : Bool) (hwf : ∀ op ∈ ir, isRouterOp op = false)
    (h : optimize t fuel ir = .success out ab) :
    out.filter (fun op => !isRouterOp op) = ir := by
  have := optimizeGo_filter t fuel ir
    (initializeLayout (numQubitsOf ir))
    [Op.currentLayout (initializeLayout (numQubitsOf ir))] false out ab hwf h
  rw [this]
  simp [List.filter, isRouterOp]

/-- Claim C2 witness: routing `H(0); CNOT(0, 2)` on the linear topology
inserts one SWAP and a refreshed layout; filtering them (and the marks) out
of the routed IR gives back exactly the input. -/
theorem claim2_gate_preservation_witness :
    List.filter (fun op => !isRouterOp op)
      [Op.currentLayout [(0, 0), (1, 1), (2, 2)], Op.singleGate "H" 0,
       Op.insertSwap 0 1 0, Op.currentLayout [(0, 1), (1, 0), (2, 2)],
       Op.tryTwoQubit "CNOT" 0 2] =
      [Op.singleGate "H" 0, Op.tryTwoQubit "CNOT" 0 2] :=
  claim2_gate_preservation linearTopology 5
    [Op.singleGate "H" 0, Op.tryTwoQubit "CNOT" 0 2]
    [Op.currentLayout [(0, 0), (1, 1), (2, 2)], Op.singleGate "H" 0,
     Op.insertSwap 0 1 0, Op.currentLayout [(0, 1), (1, 0), (2, 2)],
     Op.tryTwoQubit "CNOT" 0 2] false (by decide) (by decide)

theorem refStep_mono (acc : List Int) (op : Op) (x : Int) (h : x ∈ acc) :
    x ∈ refStep acc op := by
  cases op <;> simp [refStep, mem_insertUniq, h]

theorem refFold_mono : ∀ (ir : List Op) (acc : List Int) (x : Int),
    x ∈ acc → x ∈ ir.foldl refStep acc := by
  intro ir
  induction ir with
  | nil => intro acc x h; exact h
  | cons op rest ih =>
    intro acc x h
    exact ih (refStep acc op) x (refStep_mono acc op x h)

theorem referenced_gate_mem : ∀ (ir : List Op) (acc : List Int)
    (g : String) (c tg : Int), Op.tryTwoQubit g c tg ∈ ir →
    c ∈ ir.foldl refStep acc ∧ tg ∈ ir.foldl refStep acc := by
  intro ir
  induction ir with
  | nil => intro acc g c tg h; cases h
  | cons op rest ih =>
    intro acc g c tg h
    rw [List.foldl_cons]
    rcases List.mem_cons.mp h with hh | ht
    · subst hh
      constructor
      · exact refFold_mono rest _ c (by simp [refStep, mem_insertUniq])
      · exact refFold_mono rest _ tg (by simp [refStep, mem_insertUniq])
    · exact ih (refStep acc op) g c tg ht

theorem referenced_single_mem : ∀ (ir : List Op) (acc : List Int)
    (g : String) (q : Int), Op.singleGate g q ∈ ir →
    q ∈ ir.foldl refStep acc := by
  intro ir
  induction ir with
  | nil => intro acc g q h; cases h
  | cons op rest ih =>
    intro acc g q h
    rw [List.foldl_cons]
    rcases List.mem_cons.mp h with hh | ht
    · subst hh
      exact refFold_mono rest _ q (by simp [refStep, mem_insertUniq])
    · exact ih (refStep acc op) g q ht

theorem foldl_max_init_le : ∀ (l : List Int) (a : Int), a ≤ l.foldl max a := by
  intro l
  induction l with
  | nil => intro a; exact le_refl a
  | cons z zs ih =>
    intro a
    exact le_trans (le_max_left a z) (ih (max a z))

theorem foldl_max_mem_le : ∀ (l : List Int) (a x : Int), x ∈ l →
    x ≤ l.foldl max a := by
  intro l
  induction l with
  | nil => intro a x h; cases h
  | cons z zs ih =>
    intro a x h
    rcases List.mem_cons.mp h with hh | ht
    · subst hh
      exact le_trans (le_max_right a x) (foldl_max_init_le zs (max a x))
    · exact ih (max a z) x ht

theorem referenced_lt_numQubits (ir : List Op) (x : Int)
    (h : x ∈ referencedQubits ir) : x < numQubitsOf ir := by
  unfold numQubitsOf
  cases href : referencedQubits ir with
  | nil => rw [href] at h; cases h
  | cons y ys =>
    rw [href] at h
    show x < ys.foldl max y + 1
    rcases List.mem_cons.mp h with hh | ht
    · subst hh
      have := foldl_max_init_le ys x
      omega
    · have := foldl_max_mem_le ys y x ht
      omega

theorem initializeLayout_find : ∀ (m : Nat) (q : Int), 0 ≤ q → q < (m : Int) →
    ((List.range m).map (fun i => (Int.ofNat i, Int.ofNat i))).find?
      (fun kv => kv.1 == q) = some (q, q) := by
  intro m
  induction m with
  | zero => intro q h1 h2; omega
  | succ k ih =>
    intro q h1 h2
    rw [List.range_succ, List.map_append, List.find?_append]
    by_cases hk : q < (k : Int)
    · rw [ih q h1 hk]
      rfl
    · have hq : q = (k : Int) := by omega
      have hnone : ((List.range k).map
          (fun i => (Int.ofNat i, Int.ofNat i))).find?
            (fun kv => kv.1 == q) = none := by
        rw [List.find?_eq_none]
        intro kv hkv
        obtain ⟨i, hi, hkvi⟩ := List.mem_map.mp hkv
        have hik : i < k := List.mem_range.mp hi
        rw [← hkvi]
        simp only [beq_iff_eq, Int.ofNat_eq_natCast]
        intro heq
        omega
      rw [hnone]
      simp [hq, Int.ofNat_eq_natCast]

theorem initializeLayout_lookup (n q : Int) (h1 : 0 ≤ q) (h2 : q < n) :
    dictLookup (initializeLayout n) q = some q := by
  unfold initializeLayout dictLookup dictLookupG
  have hn : q < ((n.toNat : Nat) : Int) := by omega
  rw [initializeLayout_find n.toNat q h1 hn]
  rfl

theorem optimizeGo_identity (t : Topology) (m : Nat)
    (L : List (Int × Int)) :
    ∀ (ops : List Op) (acc : List Op),
      (∀ g c tg, Op.tryTwoQubit g c tg ∈ ops →
        dictLookup L c = some c ∧ dictLookup L tg = some tg ∧
        areAdjacent t c tg = true) →
      optimizeGo t (m + 1) ops L acc false = .success (acc ++ ops) false := by
  intro ops
  induction ops with
  | nil =>
    intro acc _
    simp [optimizeGo]
  | cons op rest ih =>
    intro acc hyp
    have hypr : ∀ g c tg, Op.tryTwoQubit g c tg ∈ rest →
        dictLookup L c = some c ∧ dictLookup L tg = some tg ∧
        areAdjacent t c tg = true :=
      fun g c tg h2 => hyp g c tg (List.mem_cons_of_mem _ h2)
    cases op with
    | tryTwoQubit g c tg =>
      obtain ⟨hc, htg, hadj⟩ := hyp g c tg (List.mem_cons_self _ _)
      have hroute : routeGate t c tg (Op.tryTwoQubit g c tg :: rest) (m + 1)
          L [] 0 = some (.done L [] 0 false) := by
        rw [routeGate, hc, htg]
        simp [hadj]
      rw [optimizeGo, hroute]
      have hrec := ih (acc ++ [Op.tryTwoQubit g c tg]) hypr
      simp only [gt_iff_lt, lt_irrefl, if_false, Bool.or_false]
      rw [List.append_assoc] at hrec
      simpa using hrec
    | singleGate g q =>
      have hrec := ih (acc ++ [Op.singleGate g q]) hypr
      rw [List.append_assoc] at hrec
      have hgoal : optimizeGo t (m + 1) rest L (acc ++ [Op.singleGate g q])
          false = .success (acc ++ ([Op.singleGate g q] ++ rest)) false :=
        hrec
      exact hgoal
    | insertSwap a b q =>
      have hrec := ih (acc ++ [Op.insertSwap a b q]) hypr
      rw [List.append_assoc] at hrec
      exact hrec
    | currentLayout l2 =>
      have hrec := ih (acc ++ [Op.currentLayout l2]) hypr
      rw [List.append_assoc] at hrec
      exact hrec

/-- Claim C8: for a well-formed input circuit (router-only kinds absent,
ids non-negative) whose two-qubit gates all lie on adjacent physical qubits
under the identity layout, the routed IR is exactly the leading `LayoutMark`
followed by the unchanged input, and contains zero `InsertSwap`
operations. -/
theorem claim8_identity_passthrough (t : Topology) (fuel : Nat)
    (ir : List Op)
    (hwf : ∀ op ∈ ir, isRouterOp op = false)
    (hnn : ∀ q ∈ referencedQubits ir, 0 ≤ q)
    (hadj : ∀ g c tg, Op.tryTwoQubit g c tg ∈ ir → areAdjacent t c tg = true)
    (hfuel : 0 < fuel) :
    optimize t fuel ir =
      .success (Op.currentLayout (initializeLayout (numQubitsOf ir)) :: ir)
        false ∧
    (Op.currentLayout (initializeLayout (numQubitsOf ir)) :: ir).countP
      isSwapOp = 0 := by
  obtain ⟨m, rfl⟩ : ∃ m, fuel = m + 1 := ⟨fuel - 1, by omega⟩
  constructor
  · have hhyp : ∀ g c tg, Op.tryTwoQubit g c tg ∈ ir →
        dictLookup (initializeLayout (numQubitsOf ir)) c = some c ∧
        dictLookup (initializeLayout (numQubitsOf ir)) tg = some tg ∧
        areAdjacent t c tg = true := by
      intro g c tg hmem
      obtain ⟨hcm, htgm⟩ := referenced_gate_mem ir [] g c tg hmem
      exact ⟨initializeLayout_lookup _ c (hnn c hcm)
          (referenced_lt_numQubits ir c hcm),
        initializeLayout_lookup _ tg (hnn tg htgm)
          (referenced_lt_numQubits ir tg htgm),
        hadj g c tg hmem⟩
    exact optimizeGo_identity t m (initializeLayout (numQubitsOf ir)) ir
      [Op.currentLayout (initializeLayout (numQubitsOf ir))] hhyp
  · simp only [List.countP_cons, isSwapOp]
    rw [List.countP_eq_zero.mpr]
    · rfl
    · intro op hop
      have := hwf op hop
      cases op <;> simp_all [isRouterOp, isSwapOp]

/-- Claim C8 witness: `H(0); CNOT(0, 1)` is already adjacent on the linear
topology, so the routed IR is the leading mark plus the unchanged input and
has no SWAPs. -/
theorem claim8_identity_passthrough_witness :
    optimize linearTopology 1
      [Op.singleGate "H" 0, Op.tryTwoQubit "CNOT" 0 1] =
      .success [Op.currentLayout [(0, 0), (1, 1)], Op.singleGate "H" 0,
        Op.tryTwoQubit "CNOT" 0 1] false ∧
    [Op.currentLayout [(0, 0), (1, 1)], Op.singleGate "H" 0,
      Op.tryTwoQubit "CNOT" 0 1].countP isSwapOp = 0 :=
  claim8_identity_passthrough linearTopology 1
    [Op.singleGate "H" 0, Op.tryTwoQubit "CNOT" 0 1]
    (by decide) (by decide)
    (by
      intro g c tg hmem
      rcases List.mem_cons.mp hmem with h1 | h2
      · cases h1
      · rcases List.mem_cons.mp h2 with h3 | h4
        · injection h3 with hg hc htg
          subst hc
          subst htg
          decide
        · cases h4)
    (by decide)

theorem routeGate_no_keyErr (t : Topology) (c tg : Int) (rem : List Op) :
    ∀ (fuel : Nat) (layout : List (Int × Int)) (swaps : List Op) (n : Nat),
      c ∈ layoutKeys layout → tg ∈ layoutKeys layout →
      routeGate t c tg rem fuel layout swaps n ≠ some .keyErr := by
  intro fuel
  induction fuel with
  | zero => intro layout swaps n _ _ h; cases h
  | succ m ih =>
    intro layout swaps n hc htg h
    rw [routeGate] at h
    split at h
    · split at h
      · simp at h
      · split at h
        · simp at h
        · rename_i q1 q2 cost hsel
          exact ih _ _ _
            (by rw [applySwap_keys]; exact hc)
            (by rw [applySwap_keys]; exact htg) h
    · rename_i hother
      obtain ⟨pq1, h1⟩ := Option.isSome_iff_exists.mp
        ((dictLookup_isSome_iff layout c).mpr hc)
      obtain ⟨pq2, h2⟩ := Option.isSome_iff_exists.mp
        ((dictLookup_isSome_iff layout tg).mpr htg)
      exact hother pq1 pq2 h1 h2

theorem optimizeGo_no_keyError (t : Topology) (fuel : Nat) :
    ∀ (ops : List Op) (layout : List (Int × Int)) (acc : List Op)
      (ab : Bool),
      (∀ g c tg, Op.tryTwoQubit g c tg ∈ ops →
        c ∈ layoutKeys layout ∧ tg ∈ layoutKeys layout) →
      optimizeGo t fuel ops layout acc ab ≠ .keyError := by
  intro ops
  induction ops with
  | nil =>
    intro layout acc ab _ h
    simp [optimizeGo] at h
  | cons op rest ih =>
    intro layout acc ab hyp h
    have hypr0 : ∀ g c tg, Op.tryTwoQubit g c tg ∈ rest →
        c ∈ layoutKeys layout ∧ tg ∈ layoutKeys layout :=
      fun g c tg h2 => hyp g c tg (List.mem_cons_of_mem _ h2)
    cases op with
    | tryTwoQubit g c tg =>
      have hcm := hyp g c tg (List.mem_cons_self _ _)
      rw [optimizeGo] at h
      split at h
      · cases h
      · rename_i hroute
        exact routeGate_no_keyErr t c tg _ fuel layout [] 0 hcm.1 hcm.2
          hroute
      · rename_i layout2 swaps numSwaps ab3 hroute
        obtain ⟨_, _, _, _, hkeys⟩ :=
          routeGate_facts t c tg (Op.tryTwoQubit g c tg :: rest) fuel layout
            [] 0 layout2 swaps numSwaps ab3 hroute
        have hypr : ∀ g2 c2 tg2, Op.tryTwoQubit g2 c2 tg2 ∈ rest →
            c2 ∈ layoutKeys layout2 ∧ tg2 ∈ layoutKeys layout2 := by
          intro g2 c2 tg2 h2
          rw [hkeys]
          exact hypr0 g2 c2 tg2 h2
        exact ih layout2 _ _ hypr h
    | singleGate g q =>
      have h2 : optimizeGo t fuel rest layout (acc ++ [Op.singleGate g q])
          ab = .keyError := h
      exact ih layout _ ab hypr0 h2
    | insertSwap a b q =>
      have h2 : optimizeGo t fuel rest layout (acc ++ [Op.insertSwap a b q])
          ab = .keyError := h
      exact ih layout _ ab hypr0 h2
    | currentLayout l2 =>
      have h2 : optimizeGo t fuel rest layout
          (acc ++ [Op.currentLayout l2]) ab = .keyError := h
      exact ih layout _ ab hypr0 h2

/-- Claim C10: for an input IR consisting only of gate operations with
non-negative logical ids, every layout lookup the router performs succeeds:
the initial identity layout on `[0, max id + 1)` covers every referenced
qubit (single-qubit-only qubits included), SWAP application never changes
the layout's key set, and therefore the `KeyError` branch of
`get_physical_qubits` is unreachable. -/
theorem claim10_lookup_safety (t : Topology) (fuel : Nat) (ir : List Op)
    (_hkind : ∀ op ∈ ir, isRouterOp op = false)
    (hnn : ∀ q ∈ referencedQubits ir, 0 ≤ q) :
    (∀ q ∈ referencedQubits ir,
      dictLookup (initializeLayout (numQubitsOf ir)) q = some q) ∧
    optimize t fuel ir ≠ .keyError := by
  have hlook : ∀ q ∈ referencedQubits ir,
      dictLookup (initializeLayout (numQubitsOf ir)) q = some q := by
    intro q hq
    exact initializeLayout_lookup _ q (hnn q hq)
      (referenced_lt_numQubits ir q hq)
  refine ⟨hlook, ?_⟩
  apply optimizeGo_no_keyError
  intro g c tg hmem
  obtain ⟨hcm, htgm⟩ := referenced_gate_mem ir [] g c tg hmem
  constructor
  · rw [← dictLookup_isSome_iff]
    rw [hlook c hcm]
    rfl
  · rw [← dictLookup_isSome_iff]
    rw [hlook tg htgm]
    rfl

/-- Claim C10 witness: on `H(0); CNOT(0, 1)` the initial layout covers both
referenced qubits and the pass never raises a layout `KeyError`. -/
theorem claim10_lookup_safety_witness :
    optimize linearTopology 1
      [Op.singleGate "H" 0, Op.tryTwoQubit "CNOT" 0 1] ≠ .keyError :=
  (claim10_lookup_safety linearTopology 1
    [Op.singleGate "H" 0, Op.tryTwoQubit "CNOT" 0 1]
    (by decide) (by decide)).2

/-- Claim C1 counterexample: routing `CNOT(3, 4)` on the 3-qubit linear
topology finds no SWAP candidates (qubits P3, P4 are unknown to the
coupling graph), so the gate is emitted un-routed: the routed IR contains a
`TryTwoQubit` whose translation through the most recent `LayoutMark` is not
adjacent. -/
theorem claim1_adjacency_counterexample :
    optimize linearTopology 1 [Op.tryTwoQubit "CNOT" 3 4] =
      .success [Op.currentLayout
        [(0, 0), (1, 1), (2, 2), (3, 3), (4, 4)],
        Op.tryTwoQubit "CNOT" 3 4] true ∧
    routedAdjacent linearTopology []
      [Op.currentLayout [(0, 0), (1, 1), (2, 2), (3, 3), (4, 4)],
       Op.tryTwoQubit "CNOT" 3 4] = false := by
  refine ⟨?_, ?_⟩ <;> decide

theorem optimizeGo_adjacent (t : Topology) (fuel : Nat) :
    ∀ (ops : List Op) (layout : List (Int × Int)) (acc : List Op)
      (out : List Op),
      (∀ op ∈ ops, isRouterOp op = false) →
      lastMark [] acc = layout →
      routedAdjacent t [] acc = true →
      optimizeGo t fuel ops layout acc false = .success out false →
      routedAdjacent t [] out = true := by
  intro ops
  induction ops with
  | nil =>
    intro layout acc out _ _ hra h
    simp only [optimizeGo, OptResult.success.injEq] at h
    rw [← h.1]
    exact hra
  | cons op rest ih =>
    intro layout acc out hwf hlm hra h
    have hwfr : ∀ op2 ∈ rest, isRouterOp op2 = false :=
      fun op2 h2 => hwf op2 (List.mem_cons_of_mem _ h2)
    have hwfh : isRouterOp op = false := hwf op (List.mem_cons_self _ _)
    cases op with
    | insertSwap a b q => simp [isRouterOp] at hwfh
    | currentLayout l2 => simp [isRouterOp] at hwfh
    | singleGate g q =>
      have h2 : optimizeGo t fuel rest layout
          (acc ++ [Op.singleGate g q]) false = .success out false := h
      refine ih layout (acc ++ [Op.singleGate g q]) out hwfr ?_ ?_ h2
      · rw [lastMark_append, hlm]
        rfl
      · rw [routedAdjacent_append, hra]
        rfl
    | tryTwoQubit g c tg =>
      rw [optimizeGo] at h
      split at h
      · cases h
      · cases h
      · rename_i layout2 swaps numSwaps ab3 hroute
        obtain ⟨⟨mid, hmid, hmidall⟩, _, hzero, hadjf, _⟩ :=
          routeGate_facts t c tg (Op.tryTwoQubit g c tg :: rest) fuel layout
            [] 0 layout2 swaps numSwaps ab3 hroute
        have hswaps : swaps.all isSwapOp = true := by
          rw [hmid]
          simpa using hmidall
        cases hab3 : ab3 with
        | true =>
          rw [hab3] at h
          have := optimizeGo_flag t fuel rest layout2 _ out false h
          cases this
        | false =>
          rw [hab3] at h
          obtain ⟨p1, p2, hp1, hp2, hpadj⟩ := hadjf hab3
          by_cases hns : numSwaps > 0
          · rw [if_pos hns] at h
            refine ih layout2
              ((((acc ++ swaps) ++ [Op.currentLayout layout2]) ++
                [Op.tryTwoQubit g c tg])) out hwfr ?_ ?_ h
            · simp only [lastMark_append, hlm,
                (swapOps_lastMark t layout swaps hswaps).1]
              rfl
            · simp only [routedAdjacent_append, lastMark_append, hra, hlm,
                (swapOps_lastMark t layout swaps hswaps).1,
                (swapOps_lastMark t layout swaps hswaps).2]
              simp [routedAdjacent, lastMark, hp1, hp2, hpadj]
          · have hn0 : numSwaps = 0 := by omega
            obtain ⟨hlay, hsw⟩ := hzero hn0
            rw [if_neg hns] at h
            rw [hlay] at hp1 hp2
            refine ih layout2
              ((acc ++ swaps) ++ [Op.tryTwoQubit g c tg]) out hwfr ?_ ?_ h
            · simp only [hsw, List.append_nil, lastMark_append, hlm, hlay]
              rfl
            · simp only [hsw, List.append_nil, routedAdjacent_append,
                lastMark_append, hra, hlm]
              simp [routedAdjacent, lastMark, hp1, hp2, hpadj]

/-- Claim C1, amended: for a well-formed input IR (no router-only kinds) and
a routing run in which the "no SWAP candidates" abort never fires (the pass
succeeds with the abort flag clear), every `TryTwoQubit` in the routed IR,
translated through the most recent preceding `LayoutMark`, lies on an
adjacent physical pair. -/
theorem claim1_adjacency_amended (t : Topology) (fuel : Nat)
    (ir out : List Op) (hwf : ∀ op ∈ ir, isRouterOp op = false)
    (h : optimize t fuel ir = .success out false) :
    routedAdjacent t [] out = true := by
  exact optimizeGo_adjacent t fuel ir (initializeLayout (numQubitsOf ir))
    [Op.currentLayout (initializeLayout (numQubitsOf ir))] out hwf rfl rfl h

/-- Claim C1 witness: the routed IR of `CNOT(0, 2)` on the linear topology
(one SWAP inserted, no abort) passes the adjacency check against its most
recent layout marks. -/
theorem claim1_adjacency_amended_witness :
    routedAdjacent linearTopology []
      [Op.currentLayout [(0, 0), (1, 1), (2, 2)], Op.insertSwap 0 1 0,
       Op.currentLayout [(0, 1), (1, 0), (2, 2)],
       Op.tryTwoQubit "CNOT" 0 2] = true :=
  claim1_adjacency_amended linearTopology 5 [Op.tryTwoQubit "CNOT" 0 2]
    [Op.currentLayout [(0, 0), (1, 1), (2, 2)], Op.insertSwap 0 1 0,
     Op.currentLayout [(0, 1), (1, 0), (2, 2)],
     Op.tryTwoQubit "CNOT" 0 2] (by decide) (by decide)
